import Mathlib

/-!
Shallow embedding of the email-ingestion system in `projects.py`.

The store is modelled as an association list from path strings to JSON
values together with the deterministic uuid counter of the null `UUID`
infrastructure wrapper.  Fallible operations (Python exceptions) return
`Option`/dedicated error constructors.  Emails are modelled as an ordered
header list plus an optional plain-text payload, mirroring
`email.message.EmailMessage` as used by the program.
-/

set_option maxRecDepth 100000

namespace Projects

/-- JSON-shaped documents as stored by `JsonStore` (`json.dumps`/`json.loads`
round-trips are treated as the identity at this boundary). -/
inductive JVal where
  | null : JVal
  | str : String → JVal
  | arr : List JVal → JVal
  | obj : List (String × JVal) → JVal

/-- Python-dict / in-memory-filesystem lookup on an association list. -/
def alistGet {α : Type} : List (String × α) → String → Option α
  | [], _ => none
  | (k', v) :: rest, k => if k' = k then some v else alistGet rest k

/-- Python-dict / in-memory-filesystem assignment: update in place when the
key is present, append at the end otherwise (insertion order preserved). -/
def alistSet {α : Type} : List (String × α) → String → α → List (String × α)
  | [], k, v => [(k, v)]
  | (k', v') :: rest, k, v =>
    if k' = k then (k, v) :: rest else (k', v') :: alistSet rest k v

/-- In-memory filesystem of the null `Filesystem` wrapper: path → document. -/
abbrev FS := List (String × JVal)

/-- `JsonStore` state: the filesystem plus the null `UUID` counter. -/
structure Store where
  fs : FS
  ctr : Nat

/-- `os.path.join(a, b)` for the relative/absolute cases the store can hit. -/
def pathJoin (a b : String) : String :=
  if b.data.head? = some '/' then b
  else if a.data = [] ∨ a.data.getLast? = some '/' then a ++ b
  else a ++ "/" ++ b

/-- `JsonStore.path`: the document path derived from namespace and id. -/
def storePath (ns oid : String) : String := pathJoin ns (oid ++ ".json")

/-- Ids produced by the null `UUID` wrapper: `uuid1`, `uuid2`, ... -/
def genId (n : Nat) : String := "uuid" ++ Nat.repr n

/-- `JsonStore.exists`. -/
def storeExists (st : Store) (ns oid : String) : Bool :=
  (alistGet st.fs (storePath ns oid)).isSome

/-- `JsonStore.load`; `none` is the missing-file error (`StorageError`). -/
def storeLoad (st : Store) (ns oid : String) : Option JVal :=
  alistGet st.fs (storePath ns oid)

/-- `JsonStore.append`: read-modify-write of one ordered sequence field,
initializing it to the empty sequence when absent.  `none` is the missing
document error or a non-appendable shape (a Python exception). -/
def storeAppend (st : Store) (ns oid key : String) (item : JVal) : Option Store :=
  match storeLoad st ns oid with
  | some (JVal.obj fields) =>
    match alistGet fields key with
    | none =>
      some ⟨alistSet st.fs (storePath ns oid)
        (JVal.obj (alistSet fields key (JVal.arr ([] ++ [item])))), st.ctr⟩
    | some (JVal.arr xs) =>
      some ⟨alistSet st.fs (storePath ns oid)
        (JVal.obj (alistSet fields key (JVal.arr (xs ++ [item])))), st.ctr⟩
    | some _ => none
  | _ => none

/-- `JsonStore.create`: writes `data` at the derived path, generating the id
from the uuid counter when none is supplied, and returns the id used. -/
def storeCreate (st : Store) (ns : String) (data : JVal) (oid : Option String) :
    String × Store :=
  match oid with
  | some i => (i, ⟨alistSet st.fs (storePath ns i) data, st.ctr⟩)
  | none =>
    (genId (st.ctr + 1),
     ⟨alistSet st.fs (storePath ns (genId (st.ctr + 1))) data, st.ctr + 1⟩)

/-- UTF-8 encoding of one character. -/
def utf8Bytes (c : Char) : List Nat :=
  let n := c.toNat
  if n < 128 then [n]
  else if n < 2048 then [192 + n / 64, 128 + n % 64]
  else if n < 65536 then [224 + n / 4096, 128 + (n / 64) % 64, 128 + n % 64]
  else [240 + n / 262144, 128 + (n / 4096) % 64, 128 + (n / 64) % 64, 128 + n % 64]

/-- UTF-8 bytes of a string. -/
def strBytes (s : String) : List Nat := (s.data.map utf8Bytes).flatten

/-- The base64 alphabet. -/
def b64Char (n : Nat) : Char :=
  ("ABCDEFGHIJKLMNOPQRSTUVWXYZabcdefghijklmnopqrstuvwxyz0123456789+/").data.getD n 'A'

/-- Base64 of a byte list, three bytes to four characters, `=`-padded. -/
def b64Groups : List Nat → List Char
  | [] => []
  | [a] => [b64Char (a / 4), b64Char (a % 4 * 16), '=', '=']
  | [a, b] => [b64Char (a / 4), b64Char (a % 4 * 16 + b / 16), b64Char (b % 16 * 4), '=']
  | a :: b :: c :: rest =>
    b64Char (a / 4) :: b64Char (a % 4 * 16 + b / 16) ::
      b64Char (b % 16 * 4 + c / 64) :: b64Char (c % 64) :: b64Groups rest

/-- `base64.b64encode(raw_email).decode("ascii")`. -/
def b64encode (s : String) : String := String.mk (b64Groups (strBytes s))

/-- `ProjectEntity` namespace for a project name. -/
def projectNs (name : String) : String := "projects/" ++ name

/-- `ProjectEntity.create`: empty project document under the fixed id `index`. -/
def projectCreate (st : Store) (name : String) : Store :=
  (storeCreate st (projectNs name) (JVal.obj []) (some "index")).2

/-- `ProjectEntity.exists`. -/
def projectExists (st : Store) (name : String) : Bool :=
  storeExists st (projectNs name) "index"

/-- `ProjectEntity.load`. -/
def projectLoad (st : Store) (name : String) : Option JVal :=
  storeLoad st (projectNs name) "index"

/-- `ProjectEntity.add_watcher`. -/
def addWatcher (st : Store) (name email : String) : Option Store :=
  storeAppend st (projectNs name) "index" "watchers" (JVal.str email)

/-- The JSON value stored for a subject (`None` serializes to `null`). -/
def jOfSubject : Option String → JVal
  | none => JVal.null
  | some s => JVal.str s

/-- `EmailEntity` namespace. -/
def emailsNs (name : String) : String := "projects/" ++ name ++ "/emails"

/-- Conversation-entry namespace as spelled in `create_conversation`. -/
def entriesNs (name : String) : String := "projects/" ++ name ++ "/conversations/entries/"

/-- Conversation namespace as spelled in `create_conversation`. -/
def convsNs (name : String) : String := "projects/" ++ name ++ "/conversations/"

/-- The `EmailEntity` document: the encoded raw bytes. -/
def emailDoc (raw : String) : JVal :=
  JVal.obj [("raw_email", JVal.str (b64encode raw))]

/-- The conversation-entry document: a reference to the email record. -/
def entryDoc (eId : String) : JVal := JVal.obj [("source_email", JVal.str eId)]

/-- The conversation document: subject plus the one-element entry list. -/
def convDoc (subject : Option String) (xId : String) : JVal :=
  JVal.obj [("subject", jOfSubject subject),
            ("entries", JVal.arr [JVal.obj [("id", JVal.str xId)]])]

/-- The `{id}` reference appended to the project's `conversations` field. -/
def convRef (cId : String) : JVal := JVal.obj [("id", JVal.str cId)]

/-- `ProjectEntity.create_conversation`: the four dependent writes, in Python
evaluation order (email record, conversation entry, conversation, append of
the conversation reference to the project document).  The error value carries
the store after the three creates, from where a failing append would raise. -/
def createConversation (st : Store) (name : String) (subject : Option String)
    (raw : String) : Except Store (String × Store) :=
  let r1 := storeCreate st (emailsNs name) (emailDoc raw) none
  let r2 := storeCreate r1.2 (entriesNs name) (entryDoc r1.1) none
  let r3 := storeCreate r2.2 (convsNs name) (convDoc subject r2.1) none
  match storeAppend r3.2 (projectNs name) "index" "conversations" (convRef r3.1) with
  | some st4 => Except.ok (r3.1, st4)
  | none => Except.error r3.2

/-- Email message: ordered header list plus optional plain-text payload. -/
structure EmailMsg where
  headers : List (String × String)
  body : Option String

/-- `Email()`: a fresh `EmailMessage`. -/
def emptyEmail : EmailMsg := ⟨[], none⟩

/-- ASCII lowercasing for case-insensitive header-name comparison. -/
def strLower (s : String) : String := String.mk (s.data.map Char.toLower)

/-- Case-insensitive header lookup (`msg[name]`), first occurrence. -/
def hdrFind : List (String × String) → String → Option String
  | [], _ => none
  | (n, v) :: rest, name =>
    if strLower n = strLower name then some v else hdrFind rest name

/-- Case-insensitive deletion of all occurrences (`del msg[name]`). -/
def hdrDel : List (String × String) → String → List (String × String)
  | [], _ => []
  | (n, v) :: rest, name =>
    if strLower n = strLower name then hdrDel rest name
    else (n, v) :: hdrDel rest name

/-- `Email._set_header`: delete then append at the end. -/
def setHeader (e : EmailMsg) (name value : String) : EmailMsg :=
  ⟨hdrDel e.headers name ++ [(name, value)], e.body⟩

/-- Header read used by the getters. -/
def getHeader (e : EmailMsg) (name : String) : Option String :=
  hdrFind e.headers name

/-- `set_content` appends a final newline when the text lacks one. -/
def ensureNewline (s : String) : String :=
  if s.data.getLast? = some '\n' then s else s ++ "\n"

/-- `Email.set_plain_text_body` (`EmailMessage.set_content` for 7bit ASCII
text): sets the three content headers and the payload. -/
def setPlainTextBody (e : EmailMsg) (body : String) : EmailMsg :=
  ⟨(hdrDel (hdrDel (hdrDel e.headers "Content-Type") "Content-Transfer-Encoding")
      "MIME-Version") ++
    [("Content-Type", "text/plain; charset=\"utf-8\""),
     ("Content-Transfer-Encoding", "7bit"),
     ("MIME-Version", "1.0")],
   some (ensureNewline body)⟩

/-- `Email.create_test_instance`: the public constructor, setter order
`set_from`, `set_to`, `set_plain_text_body`, `set_subject`. -/
def mkTestEmail (fromAddr toAddr subject body : String) : EmailMsg :=
  setHeader (setPlainTextBody (setHeader (setHeader emptyEmail "From" fromAddr)
    "To" toAddr) body) "Subject" subject

/-- One rendered header line. -/
def headerLineChars (h : String × String) : List Char :=
  h.1.data ++ ':' :: ' ' :: h.2.data ++ ['\n']

/-- The rendered header block. -/
def headerBlockChars (hs : List (String × String)) : List Char :=
  (hs.map headerLineChars).flatten

/-- `Email.render` (`as_bytes` with the default policy, linesep `\n`):
headers in stored order, blank separator, payload. -/
def renderChars (e : EmailMsg) : List Char :=
  headerBlockChars e.headers ++ '\n' :: (e.body.getD "").data

/-- `Email.render` at the string level. -/
def render (e : EmailMsg) : String := String.mk (renderChars e)

/-- Split at the first blank line (the first `\n\n`). -/
def splitAtBlank : List Char → Option (List Char × List Char)
  | [] => none
  | c :: rest =>
    if c = '\n' then
      if rest.head? = some '\n' then some ([], rest.tail)
      else (splitAtBlank rest).map (fun p => ('\n' :: p.1, p.2))
    else
      (splitAtBlank rest).map (fun p => (c :: p.1, p.2))

/-- Split a character list on `\n`. -/
def splitOnNl : List Char → List (List Char)
  | [] => [[]]
  | c :: rest =>
    if c = '\n' then [] :: splitOnNl rest
    else
      match splitOnNl rest with
      | [] => [[c]]
      | l :: ls => (c :: l) :: ls

/-- Split a header line at the first colon. -/
def splitColon : List Char → List Char × List Char
  | [] => ([], [])
  | c :: rest =>
    if c = ':' then ([], rest)
    else ((splitColon rest).1.cons c, (splitColon rest).2)

/-- Drop the single space the renderer writes after the colon. -/
def dropOneSpace : List Char → List Char
  | ' ' :: rest => rest
  | l => l

/-- Parse one header line into name and value. -/
def parseLine (cs : List Char) : String × String :=
  (String.mk (splitColon cs).1, String.mk (dropOneSpace (splitColon cs).2))

/-- Parse the header block into the header list. -/
def parseHeaderLines (cs : List Char) : List (String × String) :=
  ((splitOnNl cs).filter (fun l => !l.isEmpty)).map parseLine

/-- `Email.parse` (`BytesParser.parsebytes` with the default policy) at the
character level: an initial blank line ends the headers immediately. -/
def parseChars (cs : List Char) : EmailMsg :=
  if cs.head? = some '\n' then ⟨[], some (String.mk cs.tail)⟩
  else
    match splitAtBlank cs with
    | some p => ⟨parseHeaderLines p.1, some (String.mk p.2)⟩
    | none => ⟨parseHeaderLines cs, some ""⟩

/-- `Email.parse` at the string level. -/
def parseEmail (s : String) : EmailMsg := parseChars s.data

/-- The local part: `to.split("@", 1)[0]`. -/
def localPart (s : String) : String :=
  String.mk (s.data.takeWhile (fun c => c != '@'))

/-- `Email.get_user`: local part of the To-address; `none` is the Python
`AttributeError` when the To header is missing. -/
def getUser (e : EmailMsg) : Option String :=
  (getHeader e "To").map localPart

/-- The plain-text body `copy_plain_text_body_from` copies, with the fixed
placeholder when the source has no plain body. -/
def bodyTextOf (e : EmailMsg) : String :=
  e.body.getD "<no plain body found>"

/-- The outbound domain baked into the processor. -/
def emailDomain : String := "projects.rickardlindberg.me"

/-- The notification email built for one watcher, setter order as in
`EmailProcessor.process`: body copy, subject, to, from, reply-to. -/
def mkNotif (e : EmailMsg) (p cid s w : String) : EmailMsg :=
  setHeader (setHeader (setHeader (setHeader
    (setPlainTextBody emptyEmail (bodyTextOf e)) "Subject" s) "To" w)
    "From" (p ++ "@" ++ emailDomain))
    "Reply-To" (p ++ "+" ++ cid ++ "@" ++ emailDomain)

/-- The watcher fan-out loop: builds (and sends) one notification per watcher
in stored order; `none` is the crash on a missing inbound subject. -/
def sendAll (e : EmailMsg) (p cid : String) : List String → Option (List EmailMsg)
  | [] => some []
  | w :: ws =>
    match getHeader e "Subject" with
    | none => none
    | some s => (sendAll e p cid ws).map (fun rest => mkNotif e p cid s w :: rest)

/-- `.get("watchers", [])` restricted to string entries (the only entries the
commands ever store); `none` marks the unmodelled degenerate shapes. -/
def strList : List JVal → Option (List String)
  | [] => some []
  | JVal.str s :: rest => (strList rest).map (fun l => s :: l)
  | _ => none

/-- The watcher list read from a loaded project document. -/
def watchersOf (doc : JVal) : Option (List String) :=
  match doc with
  | JVal.obj fields =>
    match alistGet fields "watchers" with
    | none => some []
    | some (JVal.arr xs) => strList xs
    | some _ => none
  | _ => none

/-- Outcome of `EmailProcessor.process`: the `ProjectNotFound` error and the
crash outcome both carry the store at raise time. -/
inductive ProcOut where
  | notFound (p : String) (st : Store)
  | success (st : Store) (sent : List EmailMsg)
  | crash (st : Store)

/-- `EmailProcessor.process`: parse, route on the To local part, existence
check, conversation creation, watcher fan-out. -/
def process (st : Store) (raw : String) : ProcOut :=
  let e := parseEmail raw
  match getHeader e "To" with
  | none => ProcOut.crash st
  | some toAddr =>
    let p := localPart toAddr
    if projectExists st p then
      match createConversation st p (getHeader e "Subject") raw with
      | Except.error stc => ProcOut.crash stc
      | Except.ok (cid, st4) =>
        match projectLoad st4 p with
        | none => ProcOut.crash st4
        | some doc =>
          match watchersOf doc with
          | none => ProcOut.crash st4
          | some ws =>
            match sendAll e p cid ws with
            | none => ProcOut.crash st4
            | some sent => ProcOut.success st4 sent
    else ProcOut.notFound p st

/-- A single apostrophe, as Python `repr` quotes strings. -/
def squote : String := String.mk [Char.ofNat 39]

/-- Python `repr` of a string (escaping not modelled). -/
def pyStrRepr (s : String) : String := squote ++ s ++ squote

/-- Python `repr` of a list of strings, as interpolated by `sys.exit`. -/
def pyListRepr (l : List String) : String :=
  "[" ++ String.intercalate ", " (l.map pyStrRepr) ++ "]"

/-- Outcome of one `ProjectsApp.run` invocation. -/
inductive CmdResult where
  | ok (st : Store) (sent : List EmailMsg)
  | notFoundErr (p : String) (st : Store)
  | exited (msg : String)
  | crashed (st : Store)

/-- `ProjectsApp.run`: the command dispatch over the argument vector. -/
def runApp (st : Store) (argv : List String) (stdin : String) : CmdResult :=
  if argv = ["process_email"] then
    match process st stdin with
    | ProcOut.notFound p st' => CmdResult.notFoundErr p st'
    | ProcOut.success st' sent => CmdResult.ok st' sent
    | ProcOut.crash st' => CmdResult.crashed st'
  else if argv.take 1 = ["create_project"] then
    match argv[1]? with
    | none => CmdResult.crashed st
    | some name => CmdResult.ok (projectCreate st name) []
  else if argv.take 1 = ["watch_project"] then
    match argv.drop 1 with
    | [name, em] =>
      match addWatcher st name em with
      | some st' => CmdResult.ok st' []
      | none => CmdResult.crashed st
    | _ => CmdResult.crashed st
  else CmdResult.exited ("Unknown command " ++ pyListRepr argv)

/-- The store carried out of a finished or crashed invocation. -/
def resultStore : CmdResult → Option Store
  | CmdResult.ok st _ => some st
  | CmdResult.notFoundErr _ st => some st
  | CmdResult.crashed st => some st
  | CmdResult.exited _ => none

/-- Store states reachable from the empty store through the command surface,
including states left behind by a crashed invocation. -/
inductive Reachable : Store → Prop where
  | init : Reachable ⟨[], 0⟩
  | step {st st' : Store} (argv : List String) (stdin : String) :
      Reachable st → resultStore (runApp st argv stdin) = some st' → Reachable st'

/-! Association-list lemmas. -/

theorem alistGet_set_self {α : Type} (l : List (String × α)) (k : String) (v : α) :
    alistGet (alistSet l k v) k = some v := by
  induction l with
  | nil => simp [alistGet, alistSet]
  | cons h rest ih =>
    obtain ⟨k', v'⟩ := h
    by_cases hk : k' = k
    · simp [alistSet, hk, alistGet]
    · simp [alistSet, hk, alistGet, ih]

theorem alistGet_set_ne {α : Type} (l : List (String × α)) {k k' : String} (v : α)
    (h : k' ≠ k) : alistGet (alistSet l k v) k' = alistGet l k' := by
  have hne : k ≠ k' := Ne.symm h
  induction l with
  | nil => simp [alistGet, alistSet, hne]
  | cons hd rest ih =>
    obtain ⟨a, b⟩ := hd
    by_cases hk : a = k
    · subst hk
      simp [alistSet, alistGet, hne]
    · simp only [alistSet, if_neg hk, alistGet, ih]

theorem alistGet_ne_of_some_none {α : Type} {l : List (String × α)} {p q : String}
    {x : α} (h1 : alistGet l p = some x) (h2 : alistGet l q = none) : p ≠ q := by
  intro h
  rw [h, h2] at h1
  exact Option.noConfusion h1

/-! Decimal representation of generated ids: the digits of `Nat.repr` are
digit characters, the digit list is nonempty, and the representation is
injective.  These facts separate generated document paths from each other
and from the fixed `index` id. -/

theorem digitChar_isDigit {m : Nat} (h : m < 10) : (Nat.digitChar m).isDigit = true := by
  interval_cases m <;> decide

theorem toDigitsCore_ne_nil :
    ∀ (f n : Nat) (ds : List Char), f ≠ 0 ∨ ds ≠ [] → Nat.toDigitsCore 10 f n ds ≠ [] := by
  intro f
  induction f with
  | zero =>
    intro n ds h
    rcases h with h | h
    · exact absurd rfl h
    · simpa [Nat.toDigitsCore] using h
  | succ f ih =>
    intro n ds _
    simp only [Nat.toDigitsCore]
    by_cases h0 : n / 10 = 0
    · simp [h0]
    · simpa [h0] using ih (n / 10) ((n % 10).digitChar :: ds) (Or.inr (by simp))

theorem toDigits_ne_nil (n : Nat) : Nat.toDigits 10 n ≠ [] :=
  toDigitsCore_ne_nil (n + 1) n [] (Or.inl (Nat.succ_ne_zero n))

theorem toDigitsCore_digits :
    ∀ (f n : Nat) (ds : List Char), (∀ c ∈ ds, c.isDigit = true) →
      ∀ c ∈ Nat.toDigitsCore 10 f n ds, c.isDigit = true := by
  intro f
  induction f with
  | zero =>
    intro n ds hds
    simpa [Nat.toDigitsCore] using hds
  | succ f ih =>
    intro n ds hds c hc
    have hd : ∀ x ∈ ((n % 10).digitChar :: ds), x.isDigit = true := by
      intro x hx
      rcases List.mem_cons.mp hx with hx | hx
      · subst hx
        exact digitChar_isDigit (Nat.mod_lt _ (by decide))
      · exact hds x hx
    simp only [Nat.toDigitsCore] at hc
    by_cases h0 : n / 10 = 0
    · rw [if_pos h0] at hc
      exact hd c hc
    · rw [if_neg h0] at hc
      exact ih (n / 10) ((n % 10).digitChar :: ds) hd c hc

theorem toDigits_digits (n : Nat) : ∀ c ∈ Nat.toDigits 10 n, c.isDigit = true :=
  toDigitsCore_digits (n + 1) n [] (by intro c hc; cases hc)

theorem toDigitsCore_fuel (n : Nat) :
    ∀ (f₁ f₂ : Nat) (ds : List Char), n < f₁ → n < f₂ →
      Nat.toDigitsCore 10 f₁ n ds = Nat.toDigitsCore 10 f₂ n ds := by
  induction n using Nat.strong_induction_on with
  | _ n ih =>
    intro f₁ f₂ ds h₁ h₂
    match f₁, h₁, f₂, h₂ with
    | f₁ + 1, h₁, f₂ + 1, h₂ =>
      simp only [Nat.toDigitsCore]
      by_cases h0 : n / 10 = 0
      · simp [h0]
      · rw [if_neg h0, if_neg h0]
        have hn : 0 < n := by
          rcases Nat.eq_zero_or_pos n with h | h
          · exact absurd (by simp [h]) h0
          · exact h
        have hlt : n / 10 < n := Nat.div_lt_self hn (by decide)
        exact ih (n / 10) hlt f₁ f₂ _ (by omega) (by omega)

theorem toDigitsCore_shift (n : Nat) :
    ∀ (f : Nat) (ds : List Char), n < f →
      Nat.toDigitsCore 10 f n ds = Nat.toDigitsCore 10 f n [] ++ ds := by
  induction n using Nat.strong_induction_on with
  | _ n ih =>
    intro f ds h
    match f, h with
    | f + 1, h =>
      simp only [Nat.toDigitsCore]
      by_cases h0 : n / 10 = 0
      · simp [h0]
      · rw [if_neg h0, if_neg h0]
        have hn : 0 < n := by
          rcases Nat.eq_zero_or_pos n with h' | h'
          · exact absurd (by simp [h']) h0
          · exact h'
        have hlt : n / 10 < n := Nat.div_lt_self hn (by decide)
        have hf : n / 10 < f := by omega
        rw [ih (n / 10) hlt f _ hf, ih (n / 10) hlt f ([(n % 10).digitChar]) hf,
          List.append_assoc]
        rfl

/-- Numeric value of a digit character. -/
def charVal (c : Char) : Nat := c.toNat - 48

/-- Decimal decoding of a digit string. -/
def decDigits (l : List Char) : Nat := l.foldl (fun a c => a * 10 + charVal c) 0

theorem charVal_digitChar {m : Nat} (h : m < 10) : charVal (Nat.digitChar m) = m := by
  interval_cases m <;> decide

theorem decDigits_toDigits (n : Nat) : decDigits (Nat.toDigits 10 n) = n := by
  induction n using Nat.strong_induction_on with
  | _ n ih =>
    unfold Nat.toDigits
    simp only [Nat.toDigitsCore]
    by_cases h0 : n / 10 = 0
    · have hn : n < 10 := (Nat.div_eq_zero_iff (by decide)).mp h0
      rw [if_pos h0]
      simp only [decDigits, List.foldl, Nat.zero_mul, Nat.zero_add,
        Nat.mod_eq_of_lt hn]
      exact charVal_digitChar hn
    · rw [if_neg h0]
      have hn : 0 < n := by
        rcases Nat.eq_zero_or_pos n with h' | h'
        · exact absurd (by simp [h']) h0
        · exact h'
      have hlt : n / 10 < n := Nat.div_lt_self hn (by decide)
      rw [toDigitsCore_shift (n / 10) n [(n % 10).digitChar] hlt,
        toDigitsCore_fuel (n / 10) n (n / 10 + 1) [] hlt (Nat.lt_succ_self _)]
      have ih' := ih (n / 10) hlt
      unfold Nat.toDigits at ih'
      have hdec : decDigits (Nat.toDigitsCore 10 (n / 10 + 1) (n / 10) [] ++
          [(n % 10).digitChar]) =
          decDigits (Nat.toDigitsCore 10 (n / 10 + 1) (n / 10) []) * 10 +
            charVal ((n % 10).digitChar) := by
        simp [decDigits, List.foldl_append, List.foldl]
      rw [hdec, ih', charVal_digitChar (Nat.mod_lt _ (by decide))]
      omega

theorem toDigits_inj {m n : Nat} (h : Nat.toDigits 10 m = Nat.toDigits 10 n) : m = n := by
  have := congrArg decDigits h
  rwa [decDigits_toDigits, decDigits_toDigits] at this

theorem mem_of_getLast?_eq {α : Type} :
    ∀ {l : List α} {a : α}, l.getLast? = some a → a ∈ l := by
  intro l
  induction l with
  | nil => intro a h; cases h
  | cons x l ih =>
    intro a h
    cases l with
    | nil =>
      simp [List.getLast?] at h
      simp [h]
    | cons y l' =>
      rw [List.getLast?_cons_cons] at h
      exact List.mem_cons_of_mem _ (ih h)

theorem exists_getLast?_eq {α : Type} {l : List α} (h : l ≠ []) :
    ∃ a, l.getLast? = some a :=
  Option.isSome_iff_exists.mp (List.getLast?_isSome.mpr h)

/-! Path-disjointness lemmas: a generated-id path never coincides with an
`index` path, and two generated-id paths coincide only for the same counter
value.  These underpin the freshness invariant of `JsonStore.create`. -/

theorem repr_data (n : Nat) : (Nat.repr n).data = Nat.toDigits 10 n := rfl

theorem genId_json_data (n : Nat) : (genId n ++ ".json").data =
    'u' :: 'u' :: 'i' :: 'd' :: (Nat.toDigits 10 n ++ ['.', 'j', 's', 'o', 'n']) := by
  have h1 : "uuid".data = ['u', 'u', 'i', 'd'] := rfl
  have h2 : ".json".data = ['.', 'j', 's', 'o', 'n'] := rfl
  simp [genId, String.data_append, h1, h2, repr_data]

theorem index_json_data : (("index" : String) ++ ".json").data =
    ['i', 'n', 'd', 'e', 'x', '.', 'j', 's', 'o', 'n'] := rfl

theorem storePath_gen_data (ns : String) (n : Nat) :
    ∃ pre, (storePath ns (genId n)).data =
      (pre ++ 'd' :: Nat.toDigits 10 n) ++ ['.', 'j', 's', 'o', 'n'] := by
  unfold storePath pathJoin
  rw [genId_json_data]
  simp only [List.head?_cons]
  rw [if_neg (by decide : ¬ (some 'u' = some '/'))]
  by_cases hns : ns.data = [] ∨ ns.data.getLast? = some '/'
  · rw [if_pos hns]
    refine ⟨ns.data ++ ['u', 'u', 'i'], ?_⟩
    rw [String.data_append, genId_json_data]
    simp
  · rw [if_neg hns]
    refine ⟨(ns.data ++ ['/']) ++ ['u', 'u', 'i'], ?_⟩
    rw [String.data_append, String.data_append, genId_json_data]
    have h3 : ("/" : String).data = ['/'] := rfl
    rw [h3]
    simp

theorem storePath_index_data (ns : String) :
    ∃ pre, (storePath ns "index").data = (pre ++ ['x']) ++ ['.', 'j', 's', 'o', 'n'] := by
  unfold storePath pathJoin
  rw [index_json_data]
  simp only [List.head?_cons]
  rw [if_neg (by decide : ¬ (some 'i' = some '/'))]
  by_cases hns : ns.data = [] ∨ ns.data.getLast? = some '/'
  · rw [if_pos hns]
    refine ⟨ns.data ++ ['i', 'n', 'd', 'e'], ?_⟩
    rw [String.data_append, index_json_data]
    simp
  · rw [if_neg hns]
    refine ⟨(ns.data ++ ['/']) ++ ['i', 'n', 'd', 'e'], ?_⟩
    rw [String.data_append, String.data_append, index_json_data]
    have h3 : ("/" : String).data = ['/'] := rfl
    rw [h3]
    simp

theorem storePath_gen_ne_index (ns₁ ns₂ : String) (n : Nat) :
    storePath ns₁ (genId n) ≠ storePath ns₂ "index" := by
  intro h
  obtain ⟨p₁, e₁⟩ := storePath_gen_data ns₁ n
  obtain ⟨p₂, e₂⟩ := storePath_index_data ns₂
  have hd := congrArg String.data h
  rw [e₁, e₂] at hd
  have h2 := List.append_cancel_right hd
  obtain ⟨c, hc⟩ := exists_getLast?_eq (toDigits_ne_nil n)
  have hcd : c.isDigit = true := toDigits_digits n c (mem_of_getLast?_eq hc)
  have h3 := congrArg List.getLast? h2
  rw [show ('d' :: Nat.toDigits 10 n) = ['d'] ++ Nat.toDigits 10 n from rfl] at h3
  rw [List.getLast?_append, List.getLast?_append, hc] at h3
  simp only [Option.or_some] at h3
  have h4 : (['x'] : List Char).getLast? = some 'x' := rfl
  rw [List.getLast?_append, h4, Option.or_some] at h3
  have : c = 'x' := by
    injection h3
  subst this
  exact absurd hcd (by decide)

theorem digit_run_left :
    ∀ (a b x y : List Char), (∀ c ∈ a, c.isDigit = true) → (∀ c ∈ b, c.isDigit = true) →
      a ++ 'd' :: x = b ++ 'd' :: y → a = b := by
  intro a
  induction a with
  | nil =>
    intro b x y _ hb h
    cases b with
    | nil => rfl
    | cons c b' =>
      simp only [List.nil_append, List.cons_append, List.cons.injEq] at h
      have : c.isDigit = true := hb c (List.mem_cons_self c b')
      rw [← h.1] at this
      exact absurd this (by decide)
  | cons c a' ih =>
    intro b x y ha hb h
    cases b with
    | nil =>
      simp only [List.cons_append, List.nil_append, List.cons.injEq] at h
      have : c.isDigit = true := ha c (List.mem_cons_self c a')
      rw [h.1] at this
      exact absurd this (by decide)
    | cons c' b' =>
      simp only [List.cons_append, List.cons.injEq] at h
      have ha' : ∀ d ∈ a', d.isDigit = true := fun d hd => ha d (List.mem_cons_of_mem _ hd)
      have hb' : ∀ d ∈ b', d.isDigit = true := fun d hd => hb d (List.mem_cons_of_mem _ hd)
      rw [h.1, ih b' x y ha' hb' h.2]

theorem storePath_gen_inj {ns₁ ns₂ : String} {m n : Nat}
    (h : storePath ns₁ (genId m) = storePath ns₂ (genId n)) : m = n := by
  obtain ⟨p₁, e₁⟩ := storePath_gen_data ns₁ m
  obtain ⟨p₂, e₂⟩ := storePath_gen_data ns₂ n
  have hd := congrArg String.data h
  rw [e₁, e₂] at hd
  have h2 := List.append_cancel_right hd
  have h3 := congrArg List.reverse h2
  simp only [List.reverse_append, List.reverse_cons, List.append_assoc,
    List.singleton_append] at h3
  have hda : ∀ c ∈ (Nat.toDigits 10 m).reverse, c.isDigit = true := by
    intro c hc
    exact toDigits_digits m c (List.mem_reverse.mp hc)
  have hdb : ∀ c ∈ (Nat.toDigits 10 n).reverse, c.isDigit = true := by
    intro c hc
    exact toDigits_digits n c (List.mem_reverse.mp hc)
  have h4 := digit_run_left _ _ _ _ hda hdb h3
  have h5 : Nat.toDigits 10 m = Nat.toDigits 10 n := List.reverse_inj.mp h4
  exact toDigits_inj h5

theorem storePath_gen_ne {ns₁ ns₂ : String} {m n : Nat} (h : m ≠ n) :
    storePath ns₁ (genId m) ≠ storePath ns₂ (genId n) :=
  fun he => h (storePath_gen_inj he)

/-! Round-trip lemmas for the email wire format. -/

theorem string_mk_data (s : String) : String.mk s.data = s := rfl

/-- One header line without its terminating newline. -/
def lineCore (h : String × String) : List Char :=
  h.1.data ++ ':' :: ' ' :: h.2.data

/-- The header block with single-newline separators and no trailing newline:
the first component `splitAtBlank` recovers from a rendered message. -/
def blockCore : List (String × String) → List Char
  | [] => []
  | [h] => lineCore h
  | h :: hs => lineCore h ++ '\n' :: blockCore hs

/-- Well-formedness of one header as the Python policy enforces it: nonempty
name, no newline or colon in the name, no newline in the value. -/
def headerOk (h : String × String) : Prop :=
  h.1.data ≠ [] ∧ '\n' ∉ h.1.data ∧ ':' ∉ h.1.data ∧ '\n' ∉ h.2.data

/-- Messages whose rendering the parser inverts exactly. -/
def emailOk (e : EmailMsg) : Prop :=
  e.headers ≠ [] ∧ (∀ h ∈ e.headers, headerOk h) ∧ ∃ b, e.body = some b

theorem headerLineChars_eq (h : String × String) :
    headerLineChars h = lineCore h ++ ['\n'] := by
  simp [headerLineChars, lineCore]

theorem lineCore_no_nl {h : String × String} (hok : headerOk h) : '\n' ∉ lineCore h := by
  intro hm
  rcases List.mem_append.mp hm with hm | hm
  · exact hok.2.1 hm
  · rcases List.mem_cons.mp hm with hm | hm
    · exact absurd hm (by decide)
    · rcases List.mem_cons.mp hm with hm | hm
      · exact absurd hm (by decide)
      · exact hok.2.2.2 hm

theorem lineCore_ne_nil {h : String × String} (hok : headerOk h) : lineCore h ≠ [] := by
  unfold lineCore
  intro hm
  rcases List.append_eq_nil.mp hm with ⟨h1, _⟩
  exact hok.1 h1

theorem splitAtBlank_cons_ne {c : Char} (h : c ≠ '\n') (cs : List Char) :
    splitAtBlank (c :: cs) = (splitAtBlank cs).map (fun p => (c :: p.1, p.2)) := by
  conv_lhs => rw [splitAtBlank]
  rw [if_neg h]

theorem splitAtBlank_prepend {l : List Char} (hl : '\n' ∉ l) (cs : List Char) :
    splitAtBlank (l ++ cs) = (splitAtBlank cs).map (fun p => (l ++ p.1, p.2)) := by
  induction l with
  | nil =>
    rw [List.nil_append]
    cases splitAtBlank cs <;> simp
  | cons c l' ih =>
    have hc : c ≠ '\n' := fun he => hl (he ▸ List.mem_cons_self c l')
    have hl' : '\n' ∉ l' := fun he => hl (List.mem_cons_of_mem c he)
    rw [List.cons_append, splitAtBlank_cons_ne hc, ih hl']
    cases splitAtBlank cs <;> simp

theorem splitAtBlank_nl {c : Char} (cs : List Char) (h : c ≠ '\n') :
    splitAtBlank ('\n' :: c :: cs) =
      (splitAtBlank (c :: cs)).map (fun p => ('\n' :: p.1, p.2)) := by
  conv_lhs => rw [splitAtBlank]
  rw [if_pos rfl, if_neg (by simp [h])]

theorem splitAtBlank_blank (body : List Char) :
    splitAtBlank ('\n' :: '\n' :: body) = some ([], body) := by
  conv_lhs => rw [splitAtBlank]
  rw [if_pos rfl, if_pos (by simp)]
  rfl

theorem headerBlock_cons_form (h' : String × String) (hs : List (String × String))
    (tail : List Char) (hok : headerOk h') :
    ∃ c cs, headerBlockChars (h' :: hs) ++ tail = c :: cs ∧ c ≠ '\n' := by
  obtain ⟨c, t, hct⟩ : ∃ c t, h'.1.data = c :: t := by
    cases hh : h'.1.data with
    | nil => exact absurd hh hok.1
    | cons c t => exact ⟨c, t, rfl⟩
  have hc : c ≠ '\n' := by
    intro he
    exact hok.2.1 (by rw [hct, he]; exact List.mem_cons_self _ _)
  refine ⟨c, t ++ (':' :: ' ' :: h'.2.data ++ ['\n']) ++
    (headerBlockChars hs ++ tail), ?_, hc⟩
  simp [headerBlockChars, headerLineChars, hct]

theorem split_header_block :
    ∀ (hs : List (String × String)) (body : List Char), hs ≠ [] →
      (∀ h ∈ hs, headerOk h) →
      splitAtBlank (headerBlockChars hs ++ '\n' :: body) = some (blockCore hs, body) := by
  intro hs
  induction hs with
  | nil => intro body hne _; exact absurd rfl hne
  | cons h hs ih =>
    intro body _ hok
    have hokh : headerOk h := hok h (List.mem_cons_self h hs)
    cases hs with
    | nil =>
      have hform : headerBlockChars [h] ++ '\n' :: body =
          lineCore h ++ ('\n' :: '\n' :: body) := by
        simp [headerBlockChars, headerLineChars_eq]
      rw [hform, splitAtBlank_prepend (lineCore_no_nl hokh), splitAtBlank_blank]
      simp [blockCore]
    | cons h' hs' =>
      have hok' : ∀ x ∈ h' :: hs', headerOk x :=
        fun x hx => hok x (List.mem_cons_of_mem h hx)
      have hform : headerBlockChars (h :: h' :: hs') ++ '\n' :: body =
          lineCore h ++ ('\n' :: (headerBlockChars (h' :: hs') ++ '\n' :: body)) := by
        simp [headerBlockChars, headerLineChars_eq]
      obtain ⟨c, cs, hcs, hc⟩ := headerBlock_cons_form h' hs' ('\n' :: body)
        (hok' h' (List.mem_cons_self h' hs'))
      rw [hform, splitAtBlank_prepend (lineCore_no_nl hokh), hcs, splitAtBlank_nl cs hc,
        ← hcs, ih body (by simp) hok']
      simp [blockCore]

theorem splitOnNl_no_nl : ∀ {l : List Char}, '\n' ∉ l → splitOnNl l = [l] := by
  intro l
  induction l with
  | nil => intro _; rfl
  | cons c l' ih =>
    intro hl
    have hc : c ≠ '\n' := fun he => hl (he ▸ List.mem_cons_self c l')
    have hl' : '\n' ∉ l' := fun he => hl (List.mem_cons_of_mem c he)
    conv_lhs => rw [splitOnNl]
    rw [if_neg hc, ih hl']

theorem splitOnNl_append_nl :
    ∀ {l : List Char} (rest : List Char), '\n' ∉ l →
      splitOnNl (l ++ '\n' :: rest) = l :: splitOnNl rest := by
  intro l
  induction l with
  | nil =>
    intro rest _
    rw [List.nil_append]
    conv_lhs => rw [splitOnNl]
    rw [if_pos rfl]
  | cons c l' ih =>
    intro rest hl
    have hc : c ≠ '\n' := fun he => hl (he ▸ List.mem_cons_self c l')
    have hl' : '\n' ∉ l' := fun he => hl (List.mem_cons_of_mem c he)
    rw [List.cons_append]
    conv_lhs => rw [splitOnNl]
    rw [if_neg hc, ih rest hl']

theorem splitColon_prepend :
    ∀ {n : List Char} (v : List Char), ':' ∉ n → splitColon (n ++ ':' :: v) = (n, v) := by
  intro n
  induction n with
  | nil =>
    intro v _
    rw [List.nil_append]
    conv_lhs => rw [splitColon]
    rw [if_pos rfl]
  | cons c n' ih =>
    intro v hn
    have hc : c ≠ ':' := fun he => hn (he ▸ List.mem_cons_self c n')
    have hn' : ':' ∉ n' := fun he => hn (List.mem_cons_of_mem c he)
    rw [List.cons_append]
    conv_lhs => rw [splitColon]
    rw [if_neg hc, ih v hn']

theorem parseLine_lineCore {h : String × String} (hok : headerOk h) :
    parseLine (lineCore h) = h := by
  unfold parseLine lineCore
  rw [splitColon_prepend (' ' :: h.2.data) hok.2.2.1]
  show (String.mk h.1.data, String.mk (dropOneSpace (' ' :: h.2.data))) = h
  rw [show dropOneSpace (' ' :: h.2.data) = h.2.data from rfl,
    string_mk_data, string_mk_data]

theorem parseHeaderLines_blockCore :
    ∀ (hs : List (String × String)), (∀ h ∈ hs, headerOk h) →
      parseHeaderLines (blockCore hs) = hs := by
  intro hs
  induction hs with
  | nil => intro _; rfl
  | cons h hs ih =>
    intro hok
    have hokh : headerOk h := hok h (List.mem_cons_self h hs)
    have hln : (!(lineCore h).isEmpty) = true := by
      cases he : lineCore h with
      | nil => exact absurd he (lineCore_ne_nil hokh)
      | cons x xs => rfl
    cases hs with
    | nil =>
      show parseHeaderLines (lineCore h) = [h]
      unfold parseHeaderLines
      rw [splitOnNl_no_nl (lineCore_no_nl hokh)]
      simp [List.filter_cons, hln, parseLine_lineCore hokh]
    | cons h' hs' =>
      have hok' : ∀ x ∈ h' :: hs', headerOk x :=
        fun x hx => hok x (List.mem_cons_of_mem h hx)
      show parseHeaderLines (lineCore h ++ '\n' :: blockCore (h' :: hs')) = h :: h' :: hs'
      unfold parseHeaderLines
      rw [splitOnNl_append_nl _ (lineCore_no_nl hokh)]
      have ih' := ih hok'
      unfold parseHeaderLines at ih'
      simp only [List.filter_cons, hln, if_pos, List.map_cons, parseLine_lineCore hokh,
        Bool.true_eq, ite_true, ih']

theorem parse_render_id {e : EmailMsg} (he : emailOk e) : parseEmail (render e) = e := by
  obtain ⟨hne, hok, b, hb⟩ := he
  have hdata : (render e).data = renderChars e := rfl
  unfold parseEmail
  rw [hdata]
  have hrc : renderChars e = headerBlockChars e.headers ++ '\n' :: b.data := by
    unfold renderChars
    rw [hb]
    rfl
  cases hhs : e.headers with
  | nil => exact absurd hhs hne
  | cons h hs =>
    have hokc : ∀ x ∈ h :: hs, headerOk x := hhs ▸ hok
    obtain ⟨c, cs, hcs, hc⟩ := headerBlock_cons_form h hs ('\n' :: b.data)
      (hokc h (List.mem_cons_self h hs))
    have hr2 : renderChars e = c :: cs := by rw [hrc, hhs, hcs]
    rw [hr2]
    unfold parseChars
    rw [if_neg (by simp [hc] : ¬ ((c :: cs).head? = some '\n'))]
    rw [show (c :: cs) = renderChars e from hr2.symm, hrc, hhs,
      split_header_block (h :: hs) b.data (by simp) hokc]
    show (⟨parseHeaderLines (blockCore (h :: hs)), some (String.mk b.data)⟩ : EmailMsg) = e
    rw [parseHeaderLines_blockCore (h :: hs) hokc, string_mk_data]
    rw [← hhs, ← hb]

/-! Store-level consequences of the definitions, used by the claims about
`create_conversation` and `process`. -/

theorem projectExists_of_load {st : Store} {p : String} {doc : JVal}
    (h : projectLoad st p = some doc) : projectExists st p = true := by
  unfold projectLoad storeLoad at h
  unfold projectExists storeExists
  rw [h]
  rfl

theorem projectExists_false {st : Store} {p : String}
    (h : projectLoad st p = none) : projectExists st p = false := by
  unfold projectLoad storeLoad at h
  unfold projectExists storeExists
  rw [h]
  rfl

theorem storeAppend_eq {st : Store} {ns oid : String} {fields : List (String × JVal)}
    (hld : storeLoad st ns oid = some (JVal.obj fields)) (key : String) (item : JVal)
    {old : List JVal}
    (hget : alistGet fields key = some (JVal.arr old) ∨
      (alistGet fields key = none ∧ old = [])) :
    storeAppend st ns oid key item =
      some ⟨alistSet st.fs (storePath ns oid)
        (JVal.obj (alistSet fields key (JVal.arr (old ++ [item])))), st.ctr⟩ := by
  rcases hget with hget | ⟨hget, rfl⟩
  · simp only [storeAppend, hld, hget]
  · simp only [storeAppend, hld, hget]

/-- The store after the three creates and the final append of
`create_conversation`, spelled as the four ordered writes. -/
def convStore (st : Store) (p : String) (subject : Option String) (raw : String)
    (fields : List (String × JVal)) (old : List JVal) : Store :=
  ⟨alistSet (alistSet (alistSet (alistSet st.fs
      (storePath (emailsNs p) (genId (st.ctr + 1))) (emailDoc raw))
      (storePath (entriesNs p) (genId (st.ctr + 2))) (entryDoc (genId (st.ctr + 1))))
      (storePath (convsNs p) (genId (st.ctr + 3))) (convDoc subject (genId (st.ctr + 2))))
      (storePath (projectNs p) "index")
      (JVal.obj (alistSet fields "conversations"
        (JVal.arr (old ++ [convRef (genId (st.ctr + 3))])))),
   st.ctr + 3⟩

theorem load_index_after_creates (st : Store) (p : String) (subject : Option String)
    (raw : String) {fields : List (String × JVal)}
    (hld : projectLoad st p = some (JVal.obj fields)) :
    alistGet (alistSet (alistSet (alistSet st.fs
        (storePath (emailsNs p) (genId (st.ctr + 1))) (emailDoc raw))
        (storePath (entriesNs p) (genId (st.ctr + 2))) (entryDoc (genId (st.ctr + 1))))
        (storePath (convsNs p) (genId (st.ctr + 3))) (convDoc subject (genId (st.ctr + 2))))
      (storePath (projectNs p) "index") = some (JVal.obj fields) := by
  rw [alistGet_set_ne _ _ (Ne.symm (storePath_gen_ne_index (convsNs p) (projectNs p) (st.ctr + 3))),
    alistGet_set_ne _ _ (Ne.symm (storePath_gen_ne_index (entriesNs p) (projectNs p) (st.ctr + 2))),
    alistGet_set_ne _ _ (Ne.symm (storePath_gen_ne_index (emailsNs p) (projectNs p) (st.ctr + 1)))]
  exact hld

theorem createConversation_eq {st : Store} {p : String} (subject : Option String)
    (raw : String) {fields : List (String × JVal)} {old : List JVal}
    (hld : projectLoad st p = some (JVal.obj fields))
    (hc : alistGet fields "conversations" = some (JVal.arr old) ∨
      (alistGet fields "conversations" = none ∧ old = [])) :
    createConversation st p subject raw =
      Except.ok (genId (st.ctr + 3), convStore st p subject raw fields old) := by
  have hmid : storeLoad
      (⟨alistSet (alistSet (alistSet st.fs
          (storePath (emailsNs p) (genId (st.ctr + 1))) (emailDoc raw))
          (storePath (entriesNs p) (genId (st.ctr + 2))) (entryDoc (genId (st.ctr + 1))))
          (storePath (convsNs p) (genId (st.ctr + 3))) (convDoc subject (genId (st.ctr + 2))),
        st.ctr + 3⟩ : Store) (projectNs p) "index" = some (JVal.obj fields) :=
    load_index_after_creates st p subject raw hld
  have happ := storeAppend_eq hmid "conversations" (convRef (genId (st.ctr + 3))) hc
  show (match storeAppend
      (⟨alistSet (alistSet (alistSet st.fs
          (storePath (emailsNs p) (genId (st.ctr + 1))) (emailDoc raw))
          (storePath (entriesNs p) (genId (st.ctr + 2))) (entryDoc (genId (st.ctr + 1))))
          (storePath (convsNs p) (genId (st.ctr + 3))) (convDoc subject (genId (st.ctr + 2))),
        st.ctr + 3⟩ : Store) (projectNs p) "index" "conversations"
      (convRef (genId (st.ctr + 3))) with
    | some st4 => Except.ok (genId (st.ctr + 3), st4)
    | none => Except.error _) = _
  rw [happ]
  rfl

theorem strList_map (ws : List String) : strList (ws.map JVal.str) = some ws := by
  induction ws with
  | nil => rfl
  | cons w ws ih => simp [strList, ih]

theorem sendAll_eq {e : EmailMsg} (p cid : String) {s : String}
    (hs : getHeader e "Subject" = some s) (ws : List String) :
    sendAll e p cid ws = some (ws.map (fun w => mkNotif e p cid s w)) := by
  induction ws with
  | nil => rfl
  | cons w ws ih => simp [sendAll, hs, ih]

theorem projectLoad_convStore (st : Store) (p : String) (subject : Option String)
    (raw : String) (fields : List (String × JVal)) (old : List JVal) :
    projectLoad (convStore st p subject raw fields old) p =
      some (JVal.obj (alistSet fields "conversations"
        (JVal.arr (old ++ [convRef (genId (st.ctr + 3))])))) := by
  unfold projectLoad storeLoad convStore
  exact alistGet_set_self _ _ _

theorem watchersOf_after {fields : List (String × JVal)} {ws : List String}
    (hw : alistGet fields "watchers" = some (JVal.arr (ws.map JVal.str))) (x : JVal) :
    watchersOf (JVal.obj (alistSet fields "conversations" x)) = some ws := by
  simp only [watchersOf,
    alistGet_set_ne fields x (show ("watchers" : String) ≠ "conversations" by decide),
    hw, strList_map]

/-- Full characterization of a successful `process` run: the four writes of
`create_conversation` followed by one notification per stored watcher, in
stored order. -/
theorem process_success_eq (st : Store) (raw toA s p : String)
    (fields : List (String × JVal)) (ws : List String) (old : List JVal)
    (hto : getHeader (parseEmail raw) "To" = some toA)
    (hp : localPart toA = p)
    (hsub : getHeader (parseEmail raw) "Subject" = some s)
    (hld : projectLoad st p = some (JVal.obj fields))
    (hw : alistGet fields "watchers" = some (JVal.arr (ws.map JVal.str)))
    (hc : alistGet fields "conversations" = some (JVal.arr old) ∨
      (alistGet fields "conversations" = none ∧ old = [])) :
    process st raw = ProcOut.success
      (convStore st p (some s) raw fields old)
      (ws.map (fun w => mkNotif (parseEmail raw) p (genId (st.ctr + 3)) s w)) := by
  have hex : projectExists st p = true := projectExists_of_load hld
  simp only [process, hto, hp, hsub, hex, if_true,
    createConversation_eq (some s) raw hld hc,
    projectLoad_convStore, watchersOf_after hw,
    sendAll_eq p (genId (st.ctr + 3)) hsub ws]

/-! Evaluation lemmas for constructed emails (all definitional). -/

theorem mkTestEmail_eq (f t s b : String) :
    mkTestEmail f t s b = ⟨[("From", f), ("To", t),
      ("Content-Type", "text/plain; charset=\"utf-8\""),
      ("Content-Transfer-Encoding", "7bit"), ("MIME-Version", "1.0"),
      ("Subject", s)], some (ensureNewline b)⟩ := rfl

theorem getHeader_mkTestEmail_to (f t s b : String) :
    getHeader (mkTestEmail f t s b) "To" = some t := rfl

theorem mkNotif_eq (e : EmailMsg) (p cid s w : String) :
    mkNotif e p cid s w = ⟨[("Content-Type", "text/plain; charset=\"utf-8\""),
      ("Content-Transfer-Encoding", "7bit"), ("MIME-Version", "1.0"),
      ("Subject", s), ("To", w), ("From", p ++ "@" ++ emailDomain),
      ("Reply-To", p ++ "+" ++ cid ++ "@" ++ emailDomain)],
      some (ensureNewline (bodyTextOf e))⟩ := rfl

theorem getHeader_mkNotif_to (e : EmailMsg) (p cid s w : String) :
    getHeader (mkNotif e p cid s w) "To" = some w := rfl

theorem getHeader_mkNotif_from (e : EmailMsg) (p cid s w : String) :
    getHeader (mkNotif e p cid s w) "From" = some (p ++ "@" ++ emailDomain) := rfl

theorem getHeader_mkNotif_replyTo (e : EmailMsg) (p cid s w : String) :
    getHeader (mkNotif e p cid s w) "Reply-To" =
      some (p ++ "+" ++ cid ++ "@" ++ emailDomain) := rfl

theorem getHeader_mkNotif_subject (e : EmailMsg) (p cid s w : String) :
    getHeader (mkNotif e p cid s w) "Subject" = some s := rfl

theorem mkNotif_body (e : EmailMsg) (p cid s w : String) :
    (mkNotif e p cid s w).body = some (ensureNewline (bodyTextOf e)) := rfl

theorem headerOk_mk {n v : String} (h1 : n.data ≠ []) (h2 : '\n' ∉ n.data)
    (h3 : ':' ∉ n.data) (h4 : '\n' ∉ v.data) : headerOk (n, v) := ⟨h1, h2, h3, h4⟩

theorem mkTestEmail_ok (f t s b : String) (hf : '\n' ∉ f.data) (ht : '\n' ∉ t.data)
    (hs : '\n' ∉ s.data) : emailOk (mkTestEmail f t s b) := by
  rw [mkTestEmail_eq]
  refine ⟨by simp, ?_, ensureNewline b, rfl⟩
  intro h hh
  simp only [List.mem_cons, List.not_mem_nil, or_false] at hh
  rcases hh with rfl | rfl | rfl | rfl | rfl | rfl
  · exact headerOk_mk (by decide) (by decide) (by decide) hf
  · exact headerOk_mk (by decide) (by decide) (by decide) ht
  · exact headerOk_mk (by decide) (by decide) (by decide) (by decide)
  · exact headerOk_mk (by decide) (by decide) (by decide) (by decide)
  · exact headerOk_mk (by decide) (by decide) (by decide) (by decide)
  · exact headerOk_mk (by decide) (by decide) (by decide) hs

theorem takeWhile_before_at :
    ∀ (l : List Char), (rest : List Char) → '@' ∉ l →
      (l ++ '@' :: rest).takeWhile (fun c => c != '@') = l := by
  intro l
  induction l with
  | nil =>
    intro rest _
    rw [List.nil_append, List.takeWhile_cons]
    simp
  | cons c l' ih =>
    intro rest hl
    have hc : c ≠ '@' := fun he => hl (he ▸ List.mem_cons_self c l')
    have hl' : '@' ∉ l' := fun he => hl (List.mem_cons_of_mem c he)
    rw [List.cons_append, List.takeWhile_cons, if_pos (by simp [hc]), ih rest hl']

theorem localPart_eq {l d : String} (hl : '@' ∉ l.data) :
    localPart (l ++ "@" ++ d) = l := by
  unfold localPart
  have hdata : (l ++ "@" ++ d).data = l.data ++ '@' :: d.data := by
    rw [String.data_append, String.data_append,
      show ("@" : String).data = ['@'] from rfl]
    simp
  rw [hdata, takeWhile_before_at l.data d.data hl, string_mk_data]

/-- C1: ingesting one valid email addressed to an existing project with
stored watcher sequence `ws` appends exactly one `{id}` reference to the
project's `conversations` field and sends exactly one notification per
watcher, in stored order (the sent list is the pointwise image of `ws`). -/
theorem c1_ingest_fanout (st : Store) (raw toA s p : String)
    (fields : List (String × JVal)) (ws : List String) (old : List JVal)
    (hto : getHeader (parseEmail raw) "To" = some toA)
    (hp : localPart toA = p)
    (hsub : getHeader (parseEmail raw) "Subject" = some s)
    (hld : projectLoad st p = some (JVal.obj fields))
    (hw : alistGet fields "watchers" = some (JVal.arr (ws.map JVal.str)))
    (hc : alistGet fields "conversations" = some (JVal.arr old) ∨
      (alistGet fields "conversations" = none ∧ old = [])) :
    ∃ st' : Store, ∃ fields' : List (String × JVal),
      process st raw = ProcOut.success st'
        (ws.map (fun w => mkNotif (parseEmail raw) p (genId (st.ctr + 3)) s w)) ∧
      (ws.map (fun w => mkNotif (parseEmail raw) p (genId (st.ctr + 3)) s w)).length =
        ws.length ∧
      projectLoad st' p = some (JVal.obj fields') ∧
      alistGet fields' "conversations" =
        some (JVal.arr (old ++ [convRef (genId (st.ctr + 3))])) ∧
      alistGet fields' "watchers" = some (JVal.arr (ws.map JVal.str)) := by
  refine ⟨convStore st p (some s) raw fields old,
    alistSet fields "conversations"
      (JVal.arr (old ++ [convRef (genId (st.ctr + 3))])), ?_, ?_, ?_, ?_, ?_⟩
  · exact process_success_eq st raw toA s p fields ws old hto hp hsub hld hw hc
  · exact List.length_map ws _
  · exact projectLoad_convStore st p (some s) raw fields old
  · exact alistGet_set_self _ _ _
  · rw [alistGet_set_ne fields _
      (show ("watchers" : String) ≠ "conversations" by decide)]
    exact hw

/-- C2: processing an email whose To local part names a missing project
raises `ProjectNotFound` carrying the unchanged store: no document has been
written and no notification sent. -/
theorem c2_project_not_found (st : Store) (raw toA : String)
    (hto : getHeader (parseEmail raw) "To" = some toA)
    (hne : projectExists st (localPart toA) = false) :
    process st raw = ProcOut.notFound (localPart toA) st := by
  simp only [process, hto, hne, Bool.false_eq_true, if_false]

/-- C3: `create_conversation` performs exactly four writes in dependency
order — email record at the generated id `E = uuid(ctr+1)`, conversation
entry referencing `E` at `X = uuid(ctr+2)`, conversation with the given
subject and the one-element entry list at `C = uuid(ctr+3)`, and the append
of `{id: C}` to the project's `conversations` — and returns `C`. -/
theorem c3_create_conversation_writes (st : Store) (p : String)
    (subject : Option String) (raw : String) (fields : List (String × JVal))
    (old : List JVal)
    (hld : projectLoad st p = some (JVal.obj fields))
    (hc : alistGet fields "conversations" = some (JVal.arr old) ∨
      (alistGet fields "conversations" = none ∧ old = [])) :
    createConversation st p subject raw =
      Except.ok (genId (st.ctr + 3),
        ⟨alistSet (alistSet (alistSet (alistSet st.fs
            (storePath (emailsNs p) (genId (st.ctr + 1))) (emailDoc raw))
            (storePath (entriesNs p) (genId (st.ctr + 2)))
            (entryDoc (genId (st.ctr + 1))))
            (storePath (convsNs p) (genId (st.ctr + 3)))
            (convDoc subject (genId (st.ctr + 2))))
            (storePath (projectNs p) "index")
            (JVal.obj (alistSet fields "conversations"
              (JVal.arr (old ++ [convRef (genId (st.ctr + 3))])))),
         st.ctr + 3⟩) :=
  createConversation_eq subject raw hld hc

/-- C4: the routing key is the local part of the To-address (the segment
before the first `@`) and does not depend on the From-address, the subject,
or the body. -/
theorem c4_derive_project_key (f f2 t s s2 b b2 l d : String)
    (hl : '@' ∉ l.data) (ht : t = l ++ "@" ++ d) :
    getUser (mkTestEmail f t s b) = some l ∧
      getUser (mkTestEmail f t s b) = getUser (mkTestEmail f2 t s2 b2) := by
  have h1 : ∀ g x y, getUser (mkTestEmail g t x y) = some (localPart t) := by
    intro g x y
    unfold getUser
    rw [getHeader_mkTestEmail_to]
    rfl
  refine ⟨?_, by rw [h1, h1]⟩
  rw [h1, ht, localPart_eq hl]

/-- C5: rendering is a fixed point under one parse/render round trip for any
email built through the public constructor, for header values the policy
accepts (no embedded newlines, which Python rejects at construction time). -/
theorem c5_render_roundtrip (f t s b : String)
    (hf : '\n' ∉ f.data) (ht : '\n' ∉ t.data) (hsub : '\n' ∉ s.data) :
    render (parseEmail (render (mkTestEmail f t s b))) =
      render (mkTestEmail f t s b) := by
  rw [parse_render_id (mkTestEmail_ok f t s b hf ht hsub)]

/-- C6: every notification built during fan-out has To equal to the watcher,
From `{key}@{domain}`, Reply-To `{key}+{conversationId}@{domain}`, the
inbound subject, and the copied plain-text body. -/
theorem c6_notification_fields (st : Store) (raw toA s p : String)
    (fields : List (String × JVal)) (ws : List String) (old : List JVal)
    (hto : getHeader (parseEmail raw) "To" = some toA)
    (hp : localPart toA = p)
    (hsub : getHeader (parseEmail raw) "Subject" = some s)
    (hld : projectLoad st p = some (JVal.obj fields))
    (hw : alistGet fields "watchers" = some (JVal.arr (ws.map JVal.str)))
    (hc : alistGet fields "conversations" = some (JVal.arr old) ∨
      (alistGet fields "conversations" = none ∧ old = [])) :
    ∃ st' : Store, ∃ sent : List EmailMsg,
      process st raw = ProcOut.success st' sent ∧
      sent.length = ws.length ∧
      ∀ i : Nat, (hi : i < sent.length) → (hi' : i < ws.length) →
        getHeader (sent.get ⟨i, hi⟩) "To" = some (ws.get ⟨i, hi'⟩) ∧
        getHeader (sent.get ⟨i, hi⟩) "From" = some (p ++ "@" ++ emailDomain) ∧
        getHeader (sent.get ⟨i, hi⟩) "Reply-To" =
          some (p ++ "+" ++ genId (st.ctr + 3) ++ "@" ++ emailDomain) ∧
        getHeader (sent.get ⟨i, hi⟩) "Subject" = some s ∧
        (sent.get ⟨i, hi⟩).body =
          some (ensureNewline (bodyTextOf (parseEmail raw))) := by
  refine ⟨convStore st p (some s) raw fields old,
    ws.map (fun w => mkNotif (parseEmail raw) p (genId (st.ctr + 3)) s w),
    process_success_eq st raw toA s p fields ws old hto hp hsub hld hw hc,
    List.length_map ws _, ?_⟩
  intro i hi hi'
  have hg : (ws.map (fun w => mkNotif (parseEmail raw) p (genId (st.ctr + 3)) s w)).get
      ⟨i, hi⟩ = mkNotif (parseEmail raw) p (genId (st.ctr + 3)) s (ws.get ⟨i, hi'⟩) := by
    rw [List.get_eq_getElem, List.get_eq_getElem, List.getElem_map]
  rw [hg]
  exact ⟨getHeader_mkNotif_to _ _ _ _ _, getHeader_mkNotif_from _ _ _ _ _,
    getHeader_mkNotif_replyTo _ _ _ _ _, getHeader_mkNotif_subject _ _ _ _ _,
    mkNotif_body _ _ _ _ _⟩

/-! Concrete witnesses at the doctest scenario of `EmailProcessor.process`. -/

/-- The doctest inbound email, rendered. -/
def witnessRaw : String :=
  render (mkTestEmail "user@example.com" "timeline@projects.rickardlindberg.me"
    "Hello World!" "hello")

/-- The doctest store: project `timeline` with two watchers. -/
def witnessStore : Store :=
  ⟨[("projects/timeline/index.json",
     JVal.obj [("watchers", JVal.arr [JVal.str "watcher1@example.com",
       JVal.str "watcher2@example.com"])])], 0⟩

/-- The watcher fields of the doctest store. -/
def witnessFields : List (String × JVal) :=
  [("watchers", JVal.arr [JVal.str "watcher1@example.com",
    JVal.str "watcher2@example.com"])]

/-- Witness for C1 at the doctest scenario. -/
theorem c1_witness :
    ∃ st' : Store, ∃ fields' : List (String × JVal),
      process witnessStore witnessRaw = ProcOut.success st'
        ((["watcher1@example.com", "watcher2@example.com"]).map
          (fun w => mkNotif (parseEmail witnessRaw) "timeline"
            (genId (witnessStore.ctr + 3)) "Hello World!" w)) ∧
      ((["watcher1@example.com", "watcher2@example.com"]).map
        (fun w => mkNotif (parseEmail witnessRaw) "timeline"
          (genId (witnessStore.ctr + 3)) "Hello World!" w)).length =
        (["watcher1@example.com", "watcher2@example.com"]).length ∧
      projectLoad st' "timeline" = some (JVal.obj fields') ∧
      alistGet fields' "conversations" =
        some (JVal.arr ([] ++ [convRef (genId (witnessStore.ctr + 3))])) ∧
      alistGet fields' "watchers" =
        some (JVal.arr ((["watcher1@example.com",
          "watcher2@example.com"]).map JVal.str)) :=
  c1_ingest_fanout witnessStore witnessRaw "timeline@projects.rickardlindberg.me"
    "Hello World!" "timeline" witnessFields
    ["watcher1@example.com", "watcher2@example.com"] []
    rfl rfl rfl rfl rfl (Or.inr ⟨rfl, rfl⟩)

/-- Witness for C2: an email addressed to the never-created project `ghost`. -/
theorem c2_witness :
    process witnessStore
        (render (mkTestEmail "user@example.com"
          "ghost@projects.rickardlindberg.me" "s" "b")) =
      ProcOut.notFound "ghost" witnessStore :=
  c2_project_not_found witnessStore _ "ghost@projects.rickardlindberg.me" rfl rfl

/-- Witness for C3 at the doctest scenario. -/
theorem c3_witness :
    createConversation witnessStore "timeline" (some "Hello World!") witnessRaw =
      Except.ok (genId (witnessStore.ctr + 3),
        ⟨alistSet (alistSet (alistSet (alistSet witnessStore.fs
            (storePath (emailsNs "timeline") (genId (witnessStore.ctr + 1)))
            (emailDoc witnessRaw))
            (storePath (entriesNs "timeline") (genId (witnessStore.ctr + 2)))
            (entryDoc (genId (witnessStore.ctr + 1))))
            (storePath (convsNs "timeline") (genId (witnessStore.ctr + 3)))
            (convDoc (some "Hello World!") (genId (witnessStore.ctr + 2))))
            (storePath (projectNs "timeline") "index")
            (JVal.obj (alistSet witnessFields "conversations"
              (JVal.arr ([] ++ [convRef (genId (witnessStore.ctr + 3))])))),
         witnessStore.ctr + 3⟩) :=
  c3_create_conversation_writes witnessStore "timeline" (some "Hello World!")
    witnessRaw witnessFields [] rfl (Or.inr ⟨rfl, rfl⟩)

/-- Witness for C4. -/
theorem c4_witness :
    getUser (mkTestEmail "alice@example.com" "timeline@projects.example" "s" "b") =
        some "timeline" ∧
      getUser (mkTestEmail "alice@example.com" "timeline@projects.example" "s" "b") =
        getUser (mkTestEmail "bob@other.example" "timeline@projects.example" "s2" "b2") :=
  c4_derive_project_key "alice@example.com" "bob@other.example"
    "timeline@projects.example" "s" "s2" "b" "b2" "timeline" "projects.example"
    (by decide) rfl

/-- Witness for C5. -/
theorem c5_witness :
    render (parseEmail (render (mkTestEmail "user@example.com" "to@example.com"
        "subject" "hello"))) =
      render (mkTestEmail "user@example.com" "to@example.com" "subject" "hello") :=
  c5_render_roundtrip "user@example.com" "to@example.com" "subject" "hello"
    (by decide) (by decide) (by decide)

/-- Witness for C6 at the doctest scenario. -/
theorem c6_witness :
    ∃ st' : Store, ∃ sent : List EmailMsg,
      process witnessStore witnessRaw = ProcOut.success st' sent ∧
      sent.length = (["watcher1@example.com", "watcher2@example.com"]).length ∧
      ∀ i : Nat, (hi : i < sent.length) →
        (hi' : i < (["watcher1@example.com", "watcher2@example.com"]).length) →
        getHeader (sent.get ⟨i, hi⟩) "To" =
          some ((["watcher1@example.com", "watcher2@example.com"]).get ⟨i, hi'⟩) ∧
        getHeader (sent.get ⟨i, hi⟩) "From" =
          some ("timeline" ++ "@" ++ emailDomain) ∧
        getHeader (sent.get ⟨i, hi⟩) "Reply-To" =
          some ("timeline" ++ "+" ++ genId (witnessStore.ctr + 3) ++ "@" ++ emailDomain) ∧
        getHeader (sent.get ⟨i, hi⟩) "Subject" = some "Hello World!" ∧
        (sent.get ⟨i, hi⟩).body =
          some (ensureNewline (bodyTextOf (parseEmail witnessRaw))) :=
  c6_notification_fields witnessStore witnessRaw
    "timeline@projects.rickardlindberg.me" "Hello World!" "timeline" witnessFields
    ["watcher1@example.com", "watcher2@example.com"] []
    rfl rfl rfl rfl rfl (Or.inr ⟨rfl, rfl⟩)

/-- C7 counterexample: the vector `["create_project", "timeline"]` is not the
`process_email` subcommand, yet the dispatcher does not terminate with a
diagnostic — it creates the project. -/
theorem c7_counterexample :
    runApp ⟨[], 0⟩ ["create_project", "timeline"] "" =
      CmdResult.ok ⟨[("projects/timeline/index.json", JVal.obj [])], 0⟩ [] := rfl

/-- C7 amended: the dispatcher accepts `process_email` plus the two further
subcommands `create_project` and `watch_project`; every argument vector
recognized by none of the three terminates with the `Unknown command`
diagnostic naming the arguments, with no store or send action. -/
theorem c7_amended_unknown_exits (st : Store) (argv : List String) (stdin : String)
    (h1 : argv ≠ ["process_email"])
    (h2 : argv.take 1 ≠ ["create_project"])
    (h3 : argv.take 1 ≠ ["watch_project"]) :
    runApp st argv stdin =
      CmdResult.exited ("Unknown command " ++ pyListRepr argv) := by
  simp only [runApp, if_neg h1, if_neg h2, if_neg h3]

/-- Witness for the amended C7. -/
theorem c7_witness :
    runApp ⟨[], 0⟩ ["unknown_command"] "" =
      CmdResult.exited ("Unknown command " ++ pyListRepr ["unknown_command"]) :=
  c7_amended_unknown_exits ⟨[], 0⟩ ["unknown_command"] ""
    (by decide) (by decide) (by decide)

/-- C8: when no document exists at the derived path, `load` fails and
`append` fails producing no store change; neither consults `exists` first
(the failure arises from the read itself). -/
theorem c8_missing_document (st : Store) (ns oid key : String) (item : JVal)
    (h : alistGet st.fs (storePath ns oid) = none) :
    storeLoad st ns oid = none ∧ storeAppend st ns oid key item = none := by
  refine ⟨h, ?_⟩
  simp only [storeAppend, storeLoad, h]

/-- Witness for C8 on the empty store. -/
theorem c8_witness :
    storeLoad ⟨[], 0⟩ "projects/ghost" "index" = none ∧
      storeAppend ⟨[], 0⟩ "projects/ghost" "index" "watchers"
        (JVal.str "w@example.com") = none :=
  c8_missing_document ⟨[], 0⟩ "projects/ghost" "index" "watchers"
    (JVal.str "w@example.com") rfl

/-- C10: the first `add_watcher` on a project document lacking a `watchers`
field succeeds and leaves the field equal to the one-element sequence holding
the address. -/
theorem c10_first_watcher (st : Store) (name addr : String)
    (fields : List (String × JVal))
    (hld : projectLoad st name = some (JVal.obj fields))
    (hw : alistGet fields "watchers" = none) :
    ∃ st' : Store, addWatcher st name addr = some st' ∧
      ∃ fields' : List (String × JVal),
        projectLoad st' name = some (JVal.obj fields') ∧
        alistGet fields' "watchers" = some (JVal.arr [JVal.str addr]) := by
  refine ⟨⟨alistSet st.fs (storePath (projectNs name) "index")
      (JVal.obj (alistSet fields "watchers" (JVal.arr ([] ++ [JVal.str addr])))),
      st.ctr⟩, ?_,
    alistSet fields "watchers" (JVal.arr ([] ++ [JVal.str addr])), ?_, ?_⟩
  · exact storeAppend_eq hld "watchers" (JVal.str addr) (Or.inr ⟨hw, rfl⟩)
  · exact alistGet_set_self _ _ _
  · exact alistGet_set_self _ _ _

/-- A freshly created project document, as `create_project` leaves it. -/
def witnessStore2 : Store := ⟨[("projects/timeline/index.json", JVal.obj [])], 0⟩

/-- Witness for C10. -/
theorem c10_witness :
    ∃ st' : Store, addWatcher witnessStore2 "timeline" "watcher@example.com" = some st' ∧
      ∃ fields' : List (String × JVal),
        projectLoad st' "timeline" = some (JVal.obj fields') ∧
        alistGet fields' "watchers" =
          some (JVal.arr [JVal.str "watcher@example.com"]) :=
  c10_first_watcher witnessStore2 "timeline" "watcher@example.com" [] rfl rfl

/-! Freshness invariant of generated ids over the reachable states. -/

/-- Every not-yet-generated id resolves to no document, in any namespace:
the next `create` with a generated id targets an absent path. -/
def Fresh (st : Store) : Prop :=
  ∀ ns : String, ∀ n : Nat, st.ctr < n →
    alistGet st.fs (storePath ns (genId n)) = none

/-- The store carried by every `process` outcome. -/
def procStore : ProcOut → Store
  | ProcOut.notFound _ st => st
  | ProcOut.success st _ => st
  | ProcOut.crash st => st

theorem storeAppend_full_inv {st : Store} {ns oid key : String} {item : JVal}
    {st' : Store} (h : storeAppend st ns oid key item = some st') :
    ∃ fields old, storeLoad st ns oid = some (JVal.obj fields) ∧
      (alistGet fields key = some (JVal.arr old) ∨
        (alistGet fields key = none ∧ old = [])) ∧
      st' = ⟨alistSet st.fs (storePath ns oid)
        (JVal.obj (alistSet fields key (JVal.arr (old ++ [item])))), st.ctr⟩ := by
  unfold storeAppend at h
  split at h
  · next fields heq =>
    split at h
    · next hg =>
      injection h with h
      exact ⟨fields, [], heq, Or.inr ⟨hg, rfl⟩, h.symm⟩
    · next xs hg =>
      injection h with h
      exact ⟨fields, xs, heq, Or.inl hg, h.symm⟩
    · next => cases h
  · next => cases h

theorem fresh_write_existing {st : Store} {pth : String} {d : JVal}
    (hf : Fresh st) (hex : alistGet st.fs pth = some d) (doc : JVal) :
    Fresh ⟨alistSet st.fs pth doc, st.ctr⟩ := by
  intro ns n hn
  have hnone := hf ns n hn
  show alistGet (alistSet st.fs pth doc) (storePath ns (genId n)) = none
  rw [alistGet_set_ne _ _ (Ne.symm (alistGet_ne_of_some_none hex hnone))]
  exact hnone

theorem fresh_projectCreate {st : Store} (hf : Fresh st) (name : String) :
    Fresh (projectCreate st name) := by
  intro ns n hn
  show alistGet (alistSet st.fs (storePath (projectNs name) "index") (JVal.obj []))
    (storePath ns (genId n)) = none
  rw [alistGet_set_ne _ _ (storePath_gen_ne_index ns (projectNs name) n)]
  exact hf ns n hn

/-- The store after the three creates of `create_conversation`. -/
def creates3Store (st : Store) (p : String) (subject : Option String)
    (raw : String) : Store :=
  ⟨alistSet (alistSet (alistSet st.fs
      (storePath (emailsNs p) (genId (st.ctr + 1))) (emailDoc raw))
      (storePath (entriesNs p) (genId (st.ctr + 2))) (entryDoc (genId (st.ctr + 1))))
      (storePath (convsNs p) (genId (st.ctr + 3))) (convDoc subject (genId (st.ctr + 2))),
   st.ctr + 3⟩

theorem fresh_creates3 {st : Store} (hf : Fresh st) (p : String)
    (subject : Option String) (raw : String) :
    Fresh (creates3Store st p subject raw) := by
  intro ns n hn
  have hn' : st.ctr + 3 < n := hn
  show alistGet _ (storePath ns (genId n)) = none
  unfold creates3Store
  rw [alistGet_set_ne _ _ (storePath_gen_ne (by omega : n ≠ st.ctr + 3)),
    alistGet_set_ne _ _ (storePath_gen_ne (by omega : n ≠ st.ctr + 2)),
    alistGet_set_ne _ _ (storePath_gen_ne (by omega : n ≠ st.ctr + 1))]
  exact hf ns n (by omega)

theorem createConversation_inv (st : Store) (p : String) (subject : Option String)
    (raw : String) :
    (∃ st4, createConversation st p subject raw = Except.ok (genId (st.ctr + 3), st4) ∧
      ∃ d fields', alistGet (creates3Store st p subject raw).fs
          (storePath (projectNs p) "index") = some d ∧
        st4 = ⟨alistSet (creates3Store st p subject raw).fs
          (storePath (projectNs p) "index") (JVal.obj fields'), st.ctr + 3⟩) ∨
    createConversation st p subject raw =
      Except.error (creates3Store st p subject raw) := by
  have hdef : createConversation st p subject raw =
      match storeAppend (creates3Store st p subject raw) (projectNs p) "index"
          "conversations" (convRef (genId (st.ctr + 3))) with
      | some st4 => Except.ok (genId (st.ctr + 3), st4)
      | none => Except.error (creates3Store st p subject raw) := rfl
  cases happ : storeAppend (creates3Store st p subject raw) (projectNs p) "index"
      "conversations" (convRef (genId (st.ctr + 3))) with
  | none =>
    right
    rw [hdef, happ]
  | some st4 =>
    left
    obtain ⟨fields, old, hld, _, hst4⟩ := storeAppend_full_inv happ
    exact ⟨st4, by rw [hdef, happ], JVal.obj fields,
      alistSet fields "conversations"
        (JVal.arr (old ++ [convRef (genId (st.ctr + 3))])), hld, hst4⟩

theorem process_fresh (st : Store) (raw : String) (hf : Fresh st) :
    Fresh (procStore (process st raw)) := by
  cases hto : getHeader (parseEmail raw) "To" with
  | none =>
    simp only [process, hto]
    exact hf
  | some toAddr =>
    by_cases hex : projectExists st (localPart toAddr) = true
    · simp only [process, hto, hex, if_true]
      rcases createConversation_inv st (localPart toAddr)
          (getHeader (parseEmail raw) "Subject") raw with
        ⟨st4, hcc, d, fields', hd, hst4⟩ | hcc
      · simp only [hcc]
        have h4 : Fresh st4 := by
          rw [hst4]
          exact fresh_write_existing (fresh_creates3 hf _ _ _) hd _
        cases projectLoad st4 (localPart toAddr) with
        | none => exact h4
        | some doc =>
          show Fresh (procStore (match watchersOf doc with
            | none => ProcOut.crash st4
            | some ws =>
              match sendAll (parseEmail raw) (localPart toAddr) (genId (st.ctr + 3)) ws with
              | none => ProcOut.crash st4
              | some sent => ProcOut.success st4 sent))
          cases watchersOf doc with
          | none => exact h4
          | some ws =>
            show Fresh (procStore (match sendAll (parseEmail raw) (localPart toAddr)
                (genId (st.ctr + 3)) ws with
              | none => ProcOut.crash st4
              | some sent => ProcOut.success st4 sent))
            cases sendAll (parseEmail raw) (localPart toAddr) (genId (st.ctr + 3)) ws with
            | none => exact h4
            | some sent => exact h4
      · simp only [hcc]
        exact fresh_creates3 hf _ _ _
    · have hex' : projectExists st (localPart toAddr) = false := by
        cases h : projectExists st (localPart toAddr)
        · rfl
        · exact absurd h hex
      simp only [process, hto, hex', Bool.false_eq_true, if_false]
      exact hf

theorem runApp_fresh (st : Store) (argv : List String) (stdin : String)
    (hf : Fresh st) {st' : Store}
    (h : resultStore (runApp st argv stdin) = some st') : Fresh st' := by
  unfold runApp at h
  by_cases h1 : argv = ["process_email"]
  · rw [if_pos h1] at h
    have hp := process_fresh st stdin hf
    cases hpr : process st stdin with
    | notFound q stq =>
      rw [hpr] at h
      injection h with h
      rw [hpr] at hp
      rw [← h]
      exact hp
    | success stq sent =>
      rw [hpr] at h
      injection h with h
      rw [hpr] at hp
      rw [← h]
      exact hp
    | crash stq =>
      rw [hpr] at h
      injection h with h
      rw [hpr] at hp
      rw [← h]
      exact hp
  · rw [if_neg h1] at h
    by_cases h2 : argv.take 1 = ["create_project"]
    · rw [if_pos h2] at h
      cases hidx : argv[1]? with
      | none =>
        rw [hidx] at h
        injection h with h
        rw [← h]
        exact hf
      | some name =>
        rw [hidx] at h
        injection h with h
        rw [← h]
        exact fresh_projectCreate hf name
    · rw [if_neg h2] at h
      by_cases h3 : argv.take 1 = ["watch_project"]
      · rw [if_pos h3] at h
        split at h
        · next name em heq =>
          cases haw : addWatcher st name em with
          | none =>
            rw [haw] at h
            injection h with h
            rw [← h]
            exact hf
          | some stq =>
            rw [haw] at h
            injection h with h
            rw [← h]
            obtain ⟨fields, old, hld, _, hstq⟩ := storeAppend_full_inv haw
            rw [hstq]
            exact fresh_write_existing hf hld _
        · next heq =>
          injection h with h
          rw [← h]
          exact hf
      · rw [if_neg h3] at h
        cases h

theorem reachable_fresh {st : Store} (h : Reachable st) : Fresh st := by
  induction h with
  | init =>
    intro ns n _
    rfl
  | step argv stdin hr hrun ih => exact runApp_fresh _ argv stdin ih hrun

/-- C9 counterexample: after `create_project timeline` and a `watch_project`,
the project document exists and holds the watcher; re-running
`create_project timeline` — a `create` under the caller-supplied id `index` —
targets that existing document and rewrites it from scratch, so ids are not
assigned exactly once and a created document is not immune to rewriting. -/
theorem c9_counterexample :
    resultStore (runApp ⟨[], 0⟩ ["create_project", "timeline"] "") =
      some ⟨[("projects/timeline/index.json", JVal.obj [])], 0⟩ ∧
    resultStore (runApp ⟨[("projects/timeline/index.json", JVal.obj [])], 0⟩
        ["watch_project", "timeline", "w@example.com"] "") =
      some ⟨[("projects/timeline/index.json",
        JVal.obj [("watchers", JVal.arr [JVal.str "w@example.com"])])], 0⟩ ∧
    alistGet ([("projects/timeline/index.json",
        JVal.obj [("watchers", JVal.arr [JVal.str "w@example.com"])])] : FS)
      (storePath (projectNs "timeline") "index") =
      some (JVal.obj [("watchers", JVal.arr [JVal.str "w@example.com"])]) ∧
    resultStore (runApp ⟨[("projects/timeline/index.json",
        JVal.obj [("watchers", JVal.arr [JVal.str "w@example.com"])])], 0⟩
        ["create_project", "timeline"] "") =
      some ⟨[("projects/timeline/index.json", JVal.obj [])], 0⟩ :=
  ⟨rfl, rfl, rfl, rfl⟩

/-- C9 amended: in every store state reachable through the public commands,
GENERATED document ids are assigned exactly once: every id the uuid counter
has not yet produced resolves to no document in any namespace, so the next
`create` with a generated id (`uuid(ctr+1)`) targets an absent path; and
`append` only extends one ordered sequence field — initializing it when
absent — leaving every other field and every other document unchanged.
A `create` under a caller-supplied id (`create_project` re-run on an existing
name) can, by contrast, rewrite an existing document. -/
theorem c9_amended_generated_ids (st : Store) (h : Reachable st) :
    (∀ ns : String, ∀ n : Nat, st.ctr < n →
      alistGet st.fs (storePath ns (genId n)) = none) ∧
    (∀ ns oid key : String, ∀ item : JVal, ∀ st' : Store,
      storeAppend st ns oid key item = some st' →
      ∃ fields old, storeLoad st ns oid = some (JVal.obj fields) ∧
        (alistGet fields key = some (JVal.arr old) ∨
          (alistGet fields key = none ∧ old = [])) ∧
        storeLoad st' ns oid =
          some (JVal.obj (alistSet fields key (JVal.arr (old ++ [item])))) ∧
        (∀ k : String, k ≠ key →
          alistGet (alistSet fields key (JVal.arr (old ++ [item]))) k =
            alistGet fields k) ∧
        (∀ pth : String, pth ≠ storePath ns oid →
          alistGet st'.fs pth = alistGet st.fs pth) ∧
        st'.ctr = st.ctr) := by
  refine ⟨reachable_fresh h, ?_⟩
  intro ns oid key item st' happ
  obtain ⟨fields, old, hld, hget, hst'⟩ := storeAppend_full_inv happ
  refine ⟨fields, old, hld, hget, ?_, ?_, ?_, ?_⟩
  · rw [hst']
    exact alistGet_set_self _ _ _
  · intro k hk
    exact alistGet_set_ne fields _ hk
  · intro pth hp
    rw [hst']
    exact alistGet_set_ne st.fs _ hp
  · rw [hst']

/-- Witness for the amended C9 at the store reached by one `create_project`. -/
theorem c9_witness :
    (∀ ns : String, ∀ n : Nat,
      (⟨[("projects/timeline/index.json", JVal.obj [])], 0⟩ : Store).ctr < n →
      alistGet (⟨[("projects/timeline/index.json", JVal.obj [])], 0⟩ : Store).fs
        (storePath ns (genId n)) = none) ∧
    (∀ ns oid key : String, ∀ item : JVal, ∀ st' : Store,
      storeAppend (⟨[("projects/timeline/index.json", JVal.obj [])], 0⟩ : Store)
          ns oid key item = some st' →
      ∃ fields old,
        storeLoad (⟨[("projects/timeline/index.json", JVal.obj [])], 0⟩ : Store)
          ns oid = some (JVal.obj fields) ∧
        (alistGet fields key = some (JVal.arr old) ∨
          (alistGet fields key = none ∧ old = [])) ∧
        storeLoad st' ns oid =
          some (JVal.obj (alistSet fields key (JVal.arr (old ++ [item])))) ∧
        (∀ k : String, k ≠ key →
          alistGet (alistSet fields key (JVal.arr (old ++ [item]))) k =
            alistGet fields k) ∧
        (∀ pth : String, pth ≠ storePath ns oid →
          alistGet st'.fs pth =
            alistGet (⟨[("projects/timeline/index.json", JVal.obj [])], 0⟩ :
              Store).fs pth) ∧
        st'.ctr =
          (⟨[("projects/timeline/index.json", JVal.obj [])], 0⟩ : Store).ctr) :=
  c9_amended_generated_ids ⟨[("projects/timeline/index.json", JVal.obj [])], 0⟩
    (Reachable.step ["create_project", "timeline"] "" Reachable.init rfl)

end Projects
